import Mathlib

/-!
Shallow embedding of the syntropism economic orchestrator core
(src/syntropism: domain/economy.py, domain/attention.py, domain/market.py,
core/scheduler.py, core/genesis.py) and verification of the frozen claims.

Python floats are modelled as rationals (`Rat`); none of the claims hinges on
floating-point rounding.  The relational store is modelled as an in-memory
record of tables (lists of rows); SQLAlchemy sessions raising an exception
before any mutation are modelled by `Except.error` leaving the state
untouched — every operation embedded here performs all of its checks before
its first mutation, so this is faithful to commit/rollback semantics.
-/

namespace Syntropism

/-- Agent liveness, from `AgentStatus` in domain/models.py. -/
inductive AgStatus
| alive
| dead
deriving DecidableEq, Repr

/-- Bid lifecycle states, from `BidStatus` in domain/models.py. -/
inductive BdStatus
| pending
| winning
| outbid
| cancelled
| completed
deriving DecidableEq, Repr

/-- Prompt lifecycle states, from `PromptStatus` in domain/models.py. -/
inductive PrStatus
| pending
| active
| responded
deriving DecidableEq, Repr

/-- The four resource kinds, from `ResourceType` in domain/market.py. -/
inductive ResourceType
| cpu
| memory
| tokens
| attention
deriving DecidableEq, Repr

/-- Agent row (domain/models.py `Agent`); fields not consulted by any claim
(timestamps, execution_count) are omitted. -/
structure Agent where
  id : String
  credit_balance : Rat
  status : AgStatus
  total_credits_earned : Rat
  total_credits_spent : Rat
  spawn_lineage : List String
  workspace_id : Option String
deriving DecidableEq, Repr

/-- Workspace row (domain/models.py `Workspace`). -/
structure Workspace where
  id : String
  agent_id : String
  filesystem_path : String
deriving DecidableEq, Repr

/-- Transaction row (domain/models.py `Transaction`). -/
structure Transaction where
  from_entity_id : String
  to_entity_id : String
  amount : Rat
  memo : String
deriving DecidableEq, Repr

/-- ResourceBundle row (domain/models.py `ResourceBundle`): legacy absolute
fields are nullable, capacity-fraction fields default to 0. -/
structure ResourceBundle where
  id : String
  cpu_seconds : Option Rat
  memory_mb : Option Rat
  tokens : Option Rat
  attention_share : Rat
  cpu_percent : Rat
  memory_percent : Rat
  tokens_percent : Rat
  attention_percent : Rat
  duration_seconds : Rat
deriving DecidableEq, Repr

/-- Bid row (domain/models.py `Bid`); the timestamp is an abstract tick. -/
structure Bid where
  id : String
  from_agent_id : String
  resource_bundle_id : String
  amount : Rat
  status : BdStatus
  execution_id : Option String
  timestamp : Nat
deriving DecidableEq, Repr

/-- Execution row (domain/models.py `Execution`); executor-only fields
(exit_code, times) are omitted, status is the raw string the code stores. -/
structure Execution where
  id : String
  agent_id : String
  resource_bundle_id : String
  status : String
deriving DecidableEq, Repr

/-- Prompt row (domain/models.py `Prompt`); `content` is kept opaque. -/
structure Prompt where
  id : String
  from_agent_id : String
  execution_id : String
  content : String
  bid_amount : Rat
  status : PrStatus
deriving DecidableEq, Repr

/-- Response row (domain/models.py `Response`). -/
structure Response where
  prompt_id : String
  interesting : Rat
  useful : Rat
  understandable : Rat
  reason : Option String
  credits_awarded : Rat
deriving DecidableEq, Repr

/-- MarketState row (domain/models.py `MarketState`). -/
structure MarketState where
  resource_type : ResourceType
  available_supply : Rat
  current_utilization : Rat
  current_market_price : Rat
deriving DecidableEq, Repr

/-- The transactional store: one table per entity of the data model plus a
counter standing in for uuid generation. -/
structure DB where
  agents : List Agent
  workspaces : List Workspace
  bundles : List ResourceBundle
  bids : List Bid
  executions : List Execution
  transactions : List Transaction
  prompts : List Prompt
  responses : List Response
  marketStates : List MarketState
  nextId : Nat
deriving DecidableEq, Repr

/-- Filesystem model used by genesis: directories created and files written. -/
structure FS where
  dirs : List String
  files : List (String × String)
deriving DecidableEq, Repr

/-- Primary-key lookup: first row whose key matches (SQLAlchemy identity map
guarantees at most one row per key). -/
def findById {α : Type} (key : α → String) (i : String) (l : List α) : Option α :=
  l.find? (fun x => decide (key x = i))

/-- Update the first row whose key matches, leaving the rest untouched; this
mirrors mutating the single ORM object returned by a primary-key query. -/
def updateById {α : Type} (key : α → String) (i : String) (f : α → α) : List α → List α
  | [] => []
  | x :: xs => if key x = i then f x :: xs else x :: updateById key i f xs

/-- Agent lookup by id. -/
def findAgent (l : List Agent) (i : String) : Option Agent :=
  findById Agent.id i l

/-- EconomicEngine.transfer_credits (domain/economy.py lines 27-65):
checks amount > 0, source existence, destination existence unless the
destination id is the exact string "system", and sufficient funds, then
debits/credits, updates counters, and appends one Transaction. -/
def transfer_credits (db : DB) (from_id to_id : String) (amount : Rat) (memo : String) :
    Except String DB :=
  if amount ≤ 0 then .error "Amount must be positive"
  else
    match findAgent db.agents from_id with
    | none => .error "Source agent not found"
    | some fa =>
      if to_id ≠ "system" ∧ (findAgent db.agents to_id).isNone then
        .error "Destination agent not found"
      else if fa.credit_balance < amount then .error "Insufficient funds"
      else
        let agents1 := updateById Agent.id from_id
          (fun a => { a with credit_balance := a.credit_balance - amount,
                             total_credits_spent := a.total_credits_spent + amount }) db.agents
        let agents2 :=
          if to_id = "system" then agents1
          else updateById Agent.id to_id
            (fun a => { a with credit_balance := a.credit_balance + amount,
                               total_credits_earned := a.total_credits_earned + amount }) agents1
        .ok { db with agents := agents2,
                      transactions := db.transactions ++ [⟨from_id, to_id, amount, memo⟩] }

/-- C10: only the exact lowercase string "system" is a sink needing no
destination row.  Any other destination id without an agent row — including
"HUMAN", "ATTENTION_ESCROW" and the uppercase "SYSTEM" — makes
transfer_credits fail with the destination-not-found error (the raise occurs
before any mutation, so balances, counters and the transaction log keep
their prior values), while a transfer to "system" with sufficient funds
succeeds with no destination row present. -/
theorem transfer_sink_is_lowercase_system (db : DB) (from_id to_id : String)
    (amount : Rat) (memo : String) (fa : Agent)
    (hamt : 0 < amount)
    (hfrom : findAgent db.agents from_id = some fa) :
    (to_id ≠ "system" → findAgent db.agents to_id = none →
      transfer_credits db from_id to_id amount memo = .error "Destination agent not found") ∧
    (to_id = "system" → amount ≤ fa.credit_balance →
      (transfer_credits db from_id to_id amount memo).toOption.isSome = true) := by
  constructor
  · intro hne hnone
    unfold transfer_credits
    rw [if_neg (not_le_of_lt hamt), hfrom]
    simp only [hnone, Option.isNone_none, and_true]
    exact if_pos hne
  · intro hsys hbal
    subst hsys
    unfold transfer_credits
    rw [if_neg (not_le_of_lt hamt), hfrom]
    simp only [ne_eq, not_true_eq_false, false_and, if_false, not_lt_of_le hbal]
    rfl

/-- Witness database: a single agent with 10 credits. -/
def dbLedger : DB :=
  { agents := [⟨"a1", 10, .alive, 0, 0, [], none⟩],
    workspaces := [], bundles := [], bids := [], executions := [],
    transactions := [], prompts := [], responses := [], marketStates := [],
    nextId := 0 }

/-- Witness for C10: with one agent "a1" holding 10 credits, a transfer of 5
to the uppercase "SYSTEM" fails with destination-not-found, while the same
transfer to lowercase "system" succeeds. -/
theorem transfer_sink_is_lowercase_system_witness :
    transfer_credits dbLedger "a1" "SYSTEM" 5 "burn" = .error "Destination agent not found" ∧
    (transfer_credits dbLedger "a1" "system" 5 "burn").toOption.isSome = true := by
  refine ⟨?_, ?_⟩
  · exact (transfer_sink_is_lowercase_system dbLedger "a1" "SYSTEM" 5 "burn"
      ⟨"a1", 10, .alive, 0, 0, [], none⟩ (by norm_num) (by decide)).1
      (by decide) (by decide)
  · exact (transfer_sink_is_lowercase_system dbLedger "a1" "system" 5 "burn"
      ⟨"a1", 10, .alive, 0, 0, [], none⟩ (by norm_num) (by decide)).2
      rfl (by norm_num)

/-- Lookup of an execution row by id. -/
def findExecution (l : List Execution) (i : String) : Option Execution :=
  findById Execution.id i l

/-- Lookup of a bundle row by id. -/
def findBundle (l : List ResourceBundle) (i : String) : Option ResourceBundle :=
  findById ResourceBundle.id i l

/-- Lookup of a prompt row by id. -/
def findPrompt (l : List Prompt) (i : String) : Option Prompt :=
  findById Prompt.id i l

/-- Lookup of a workspace row by id. -/
def findWorkspace (l : List Workspace) (i : String) : Option Workspace :=
  findById Workspace.id i l

/-- Default attention conversion rates (domain/attention.py line 6): 50
credits per point of each of the three scores. -/
structure ConversionRates where
  interesting : Rat
  useful : Rat
  understandable : Rat
deriving DecidableEq, Repr

/-- The dict `ATTENTION_CONVERSION_RATES` of domain/attention.py. -/
def ATTENTION_CONVERSION_RATES : ConversionRates :=
  ⟨50, 50, 50⟩

/-- AttentionManager.submit_prompt (domain/attention.py lines 11-50): checks
bid_amount ≥ 0, execution existence, `execution.resource_bundle.attention_share
> 0` (note: the LEGACY share field, not the capacity-fraction
attention_percent), agent existence and balance, then escrows the bid with
one Transaction and creates a Pending prompt.  All checks precede the first
mutation, so an error leaves the store unchanged. -/
def submit_prompt (db : DB) (agent_id execution_id : String) (content : String)
    (bid_amount : Rat) : Except String (DB × Prompt) :=
  if bid_amount < 0 then .error "Bid amount must be non-negative"
  else
    match findExecution db.executions execution_id with
    | none => .error "Execution not found"
    | some ex =>
      match findBundle db.bundles ex.resource_bundle_id with
      | none => .error "Agent does not have attention allocation for this execution"
      | some bundle =>
        if bundle.attention_share ≤ 0 then
          .error "Agent does not have attention allocation for this execution"
        else
          match findAgent db.agents agent_id with
          | none => .error "Agent not found"
          | some ag =>
            if ag.credit_balance < bid_amount then .error "Insufficient funds"
            else
              let agents1 := updateById Agent.id agent_id
                (fun a => { a with credit_balance := a.credit_balance - bid_amount,
                                   total_credits_spent := a.total_credits_spent + bid_amount })
                db.agents
              let pr : Prompt :=
                ⟨"prompt-" ++ toString db.nextId, agent_id, execution_id, content,
                 bid_amount, .pending⟩
              .ok ({ db with agents := agents1,
                             transactions := db.transactions ++
                               [⟨agent_id, "attention_escrow", bid_amount, "Bid for attention slot"⟩],
                             prompts := db.prompts ++ [pr],
                             nextId := db.nextId + 1 }, pr)

/-- AttentionManager.reward_prompt (domain/attention.py lines 59-126): checks
the three scores lie in [0,10], the prompt exists and is not yet Responded,
then creates the Response, credits the agent from "human", finalizes the
escrowed bid from "attention_escrow" to "system" and marks the prompt
Responded; the transient Active status is internal to the transaction. -/
def reward_prompt (db : DB) (prompt_id : String) (interesting useful understandable : Rat)
    (reason : Option String) : Except String (DB × Response) :=
  if ¬ (0 ≤ interesting ∧ interesting ≤ 10) then .error "Scores must be between 0 and 10"
  else if ¬ (0 ≤ useful ∧ useful ≤ 10) then .error "Scores must be between 0 and 10"
  else if ¬ (0 ≤ understandable ∧ understandable ≤ 10) then .error "Scores must be between 0 and 10"
  else
    match findPrompt db.prompts prompt_id with
    | none => .error "Prompt not found"
    | some p =>
      if p.status = .responded then .error "Prompt already responded"
      else
        let credits_awarded :=
          interesting * ATTENTION_CONVERSION_RATES.interesting +
          useful * ATTENTION_CONVERSION_RATES.useful +
          understandable * ATTENTION_CONVERSION_RATES.understandable
        let resp : Response :=
          ⟨prompt_id, interesting, useful, understandable, reason, credits_awarded⟩
        match findAgent db.agents p.from_agent_id with
        | none => .error "Agent not found"
        | some _ =>
          let agents1 := updateById Agent.id p.from_agent_id
            (fun a => { a with credit_balance := a.credit_balance + credits_awarded,
                               total_credits_earned := a.total_credits_earned + credits_awarded })
            db.agents
          let prompts1 := updateById Prompt.id prompt_id
            (fun q => { q with status := .responded }) db.prompts
          .ok ({ db with agents := agents1,
                         transactions := db.transactions ++
                           [⟨"human", p.from_agent_id, credits_awarded, "Reward for prompt"⟩,
                            ⟨"attention_escrow", "system", p.bid_amount, "Finalized bid payment for prompt"⟩],
                         prompts := prompts1,
                         responses := db.responses ++ [resp] }, resp)

/-- Updating a row by key and then looking the same key up returns the
updated row, provided the update preserves the key. -/
theorem findById_updateById_self {α : Type} (key : α → String) (f : α → α)
    (hf : ∀ x, key (f x) = key x) (i : String) (l : List α) :
    findById key i (updateById key i f l) = (findById key i l).map f := by
  induction l with
  | nil => rfl
  | cons x xs ih =>
    by_cases hx : key x = i
    · simp [updateById, findById, List.find?, hx, hf]
    · simp only [updateById, if_neg hx, findById, List.find?] at ih ⊢
      simp [hx, ih]

/-- C2: rewarding a not-yet-Responded prompt with scores in range creates
exactly one Response whose credits_awarded is 50 per point of each score
(via ATTENTION_CONVERSION_RATES), credits the prompt owner by exactly that
amount, appends exactly the two Transactions human→agent (credits_awarded)
and attention_escrow→system (the prompt's bid_amount, never returned to the
agent), and leaves the prompt Responded. -/
theorem reward_prompt_settlement (db : DB) (pid : String) (si su sud : Rat)
    (reason : Option String) (p : Prompt) (a : Agent)
    (hp : findPrompt db.prompts pid = some p)
    (hs : p.status ≠ .responded)
    (hi0 : 0 ≤ si) (hi1 : si ≤ 10) (hu0 : 0 ≤ su) (hu1 : su ≤ 10)
    (hd0 : 0 ≤ sud) (hd1 : sud ≤ 10)
    (ha : findAgent db.agents p.from_agent_id = some a) :
    ATTENTION_CONVERSION_RATES = ⟨50, 50, 50⟩ ∧
    (reward_prompt db pid si su sud reason).toOption.map (fun r => r.2) =
      some ⟨pid, si, su, sud, reason, 50 * si + 50 * su + 50 * sud⟩ ∧
    (reward_prompt db pid si su sud reason).toOption.map (fun r => r.1.responses) =
      some (db.responses ++ [⟨pid, si, su, sud, reason, 50 * si + 50 * su + 50 * sud⟩]) ∧
    (reward_prompt db pid si su sud reason).toOption.map (fun r => r.1.transactions) =
      some (db.transactions ++
        [⟨"human", p.from_agent_id, 50 * si + 50 * su + 50 * sud, "Reward for prompt"⟩,
         ⟨"attention_escrow", "system", p.bid_amount, "Finalized bid payment for prompt"⟩]) ∧
    (reward_prompt db pid si su sud reason).toOption.map
        (fun r => findAgent r.1.agents p.from_agent_id) =
      some (some { a with
        credit_balance := a.credit_balance + (50 * si + 50 * su + 50 * sud),
        total_credits_earned := a.total_credits_earned + (50 * si + 50 * su + 50 * sud) }) ∧
    (reward_prompt db pid si su sud reason).toOption.map (fun r => findPrompt r.1.prompts pid) =
      some (some { p with status := .responded }) := by
  have ha' : findById Agent.id p.from_agent_id db.agents = some a := ha
  have hp' : findById Prompt.id pid db.prompts = some p := hp
  unfold reward_prompt
  rw [if_neg (not_not_intro ⟨hi0, hi1⟩), if_neg (not_not_intro ⟨hu0, hu1⟩),
      if_neg (not_not_intro ⟨hd0, hd1⟩)]
  simp only [hp, if_neg hs, ha]
  refine ⟨rfl, ?_, ?_, ?_, ?_, ?_⟩ <;>
    simp [Except.toOption, ATTENTION_CONVERSION_RATES, findById_updateById_self,
      findAgent, findPrompt, ha', hp'] <;>
    try ring

/-- Witness database for attention settlement: agent "a1" holds 90 credits
after having escrowed a bid of 10 on pending prompt "p1". -/
def dbAttn : DB :=
  { agents := [⟨"a1", 90, .alive, 0, 10, [], none⟩],
    workspaces := [], bundles := [], bids := [], executions := [],
    transactions := [⟨"a1", "attention_escrow", 10, "Bid for attention slot"⟩],
    prompts := [⟨"p1", "a1", "e1", "showcase", 10, .pending⟩],
    responses := [], marketStates := [], nextId := 1 }

/-- Witness for C2: rewarding prompt "p1" with scores (8, 9, 7) yields a
Response worth 1200 credits and appends the two settlement transactions. -/
theorem reward_prompt_settlement_witness :
    (reward_prompt dbAttn "p1" 8 9 7 none).toOption.map (fun r => r.2) =
      some ⟨"p1", 8, 9, 7, none, 50 * 8 + 50 * 9 + 50 * 7⟩ ∧
    (reward_prompt dbAttn "p1" 8 9 7 none).toOption.map (fun r => r.1.transactions) =
      some (dbAttn.transactions ++
        [⟨"human", "a1", 50 * 8 + 50 * 9 + 50 * 7, "Reward for prompt"⟩,
         ⟨"attention_escrow", "system", 10, "Finalized bid payment for prompt"⟩]) := by
  have h := reward_prompt_settlement dbAttn "p1" 8 9 7 none
      ⟨"p1", "a1", "e1", "showcase", 10, .pending⟩ ⟨"a1", 90, .alive, 0, 10, [], none⟩
      (by decide) (by decide) (by norm_num) (by norm_num) (by norm_num) (by norm_num)
      (by norm_num) (by norm_num) (by decide)
  exact ⟨h.2.1, h.2.2.2.1⟩

/-- Success condition of prompt submission as the code implements it (named
per the amended claim): execution exists, its bundle's LEGACY attention_share
is strictly positive, bid_amount is non-negative, and the agent exists with
sufficient balance. -/
def submitAllowed (db : DB) (agent_id execution_id : String) (bid_amount : Rat) : Bool :=
  decide (0 ≤ bid_amount) &&
    (match findExecution db.executions execution_id with
     | none => false
     | some ex =>
       match findBundle db.bundles ex.resource_bundle_id with
       | none => false
       | some bundle =>
         decide (0 < bundle.attention_share) &&
           (match findAgent db.agents agent_id with
            | none => false
            | some ag => decide (bid_amount ≤ ag.credit_balance)))

/-- Effects of a successful prompt submission: one escrow Transaction of the
bid amount, one new Pending prompt, the agent debited by the bid amount,
and the bid amount necessarily non-negative. -/
theorem submit_ok_effects (db : DB) (aid eid content : String) (amt : Rat)
    (db' : DB) (pr : Prompt)
    (h : submit_prompt db aid eid content amt = .ok (db', pr)) :
    db'.transactions = db.transactions ++
      [⟨aid, "attention_escrow", amt, "Bid for attention slot"⟩] ∧
    db'.prompts = db.prompts ++ [pr] ∧
    pr = ⟨"prompt-" ++ toString db.nextId, aid, eid, content, amt, .pending⟩ ∧
    0 ≤ amt ∧
    findAgent db'.agents aid = (findAgent db.agents aid).map
      (fun a => { a with credit_balance := a.credit_balance - amt,
                         total_credits_spent := a.total_credits_spent + amt }) := by
  unfold submit_prompt at h
  by_cases h0 : amt < 0
  · rw [if_pos h0] at h; exact absurd h (by simp)
  rw [if_neg h0] at h
  cases hex : findExecution db.executions eid with
  | none => rw [hex] at h; exact absurd h (by simp)
  | some ex =>
  simp only [hex] at h
  cases hbd : findBundle db.bundles ex.resource_bundle_id with
  | none => rw [hbd] at h; exact absurd h (by simp)
  | some bundle =>
  simp only [hbd] at h
  by_cases hatt : bundle.attention_share ≤ 0
  · rw [if_pos hatt] at h; exact absurd h (by simp)
  rw [if_neg hatt] at h
  cases hag : findAgent db.agents aid with
  | none => rw [hag] at h; exact absurd h (by simp)
  | some ag =>
  simp only [hag] at h
  by_cases hbal : ag.credit_balance < amt
  · rw [if_pos hbal] at h; exact absurd h (by simp)
  rw [if_neg hbal] at h
  simp only [Except.ok.injEq, Prod.mk.injEq] at h
  obtain ⟨hdb, hpr⟩ := h
  subst hdb; subst hpr
  refine ⟨rfl, rfl, rfl, not_lt.mp h0, ?_⟩
  have ha' : findById Agent.id aid db.agents = some ag := hag
  simp [findAgent, findById_updateById_self, ha']

/-- C6 (amended): submit_prompt succeeds exactly when the referenced
execution exists, the LEGACY attention_share field of that execution's
bundle is strictly positive (the capacity-fraction attention_percent is NOT
consulted), bid_amount ≥ 0, and the agent exists with balance ≥ bid_amount;
on success it escrows bid_amount with exactly one Transaction to
"attention_escrow" and creates one Pending prompt; every failing
precondition raises before the first mutation, leaving the store
unchanged. -/
theorem submit_prompt_gating (db : DB) (aid eid content : String) (amt : Rat)
    (db' : DB) (pr : Prompt) :
    ((submit_prompt db aid eid content amt).toOption.isSome = submitAllowed db aid eid amt) ∧
    (submit_prompt db aid eid content amt = .ok (db', pr) →
      db'.transactions = db.transactions ++
        [⟨aid, "attention_escrow", amt, "Bid for attention slot"⟩] ∧
      db'.prompts = db.prompts ++ [pr] ∧
      pr = ⟨"prompt-" ++ toString db.nextId, aid, eid, content, amt, .pending⟩ ∧
      findAgent db'.agents aid = (findAgent db.agents aid).map
        (fun a => { a with credit_balance := a.credit_balance - amt,
                           total_credits_spent := a.total_credits_spent + amt })) := by
  constructor
  · unfold submit_prompt submitAllowed
    by_cases h0 : amt < 0
    · simp [if_pos h0, not_le_of_lt h0, Except.toOption]
    rw [if_neg h0]
    simp only [not_lt.mp h0, decide_True, Bool.true_and]
    cases hex : findExecution db.executions eid with
    | none => simp [Except.toOption]
    | some ex =>
    simp only []
    cases hbd : findBundle db.bundles ex.resource_bundle_id with
    | none => simp [Except.toOption]
    | some bundle =>
    simp only []
    by_cases hatt : bundle.attention_share ≤ 0
    · simp [if_pos hatt, not_lt.mpr hatt, Except.toOption]
    rw [if_neg hatt]
    simp only [not_le.mp hatt, decide_True, Bool.true_and]
    cases hag : findAgent db.agents aid with
    | none => simp [Except.toOption]
    | some ag =>
    simp only []
    by_cases hbal : ag.credit_balance < amt
    · simp [if_pos hbal, not_le_of_lt hbal, Except.toOption]
    · simp [if_neg hbal, not_lt.mp hbal, Except.toOption]
  · intro h
    obtain ⟨h1, h2, h3, _, h5⟩ := submit_ok_effects db aid eid content amt db' pr h
    exact ⟨h1, h2, h3, h5⟩

/-- Counterexample database for C6: execution "e1" uses bundle "bu1" whose
canonical capacity fraction attention_percent is 1/2 but whose legacy
attention_share is 0; agent "a1" has ample balance. -/
def dbFrac : DB :=
  { agents := [⟨"a1", 100, .alive, 0, 0, [], none⟩],
    workspaces := [],
    bundles := [⟨"bu1", none, none, none, 0, 0, 0, 0, 1/2, 10⟩],
    bids := [],
    executions := [⟨"e1", "a1", "bu1", "PENDING"⟩],
    transactions := [], prompts := [], responses := [],
    marketStates := [], nextId := 0 }

/-- Counterexample for C6 as stated: the execution exists, the canonical
fractional ATTENTION field of its bundle is strictly positive (1/2), the
bid amount 5 is non-negative and within the agent's balance of 100 — yet
submit_prompt rejects the submission, because the code checks the legacy
attention_share field, which is 0. -/
theorem submit_prompt_fraction_counterexample :
    (findBundle dbFrac.bundles "bu1").map ResourceBundle.attention_percent = some (1/2) ∧
    (0:Rat) < 1/2 ∧
    (findAgent dbFrac.agents "a1").map Agent.credit_balance = some 100 ∧
    submit_prompt dbFrac "a1" "e1" "hello" 5 =
      .error "Agent does not have attention allocation for this execution" := by
  refine ⟨rfl, by norm_num, rfl, rfl⟩

/-- Witness database for a successful submission: bundle "bu1" has legacy
attention_share 1, execution "e1" references it, agent "a1" holds 100. -/
def dbGood : DB :=
  { agents := [⟨"a1", 100, .alive, 0, 0, [], none⟩],
    workspaces := [],
    bundles := [⟨"bu1", none, none, none, 1, 0, 0, 0, 0, 10⟩],
    bids := [],
    executions := [⟨"e1", "a1", "bu1", "PENDING"⟩],
    transactions := [], prompts := [], responses := [],
    marketStates := [], nextId := 0 }

/-- State of dbGood after agent "a1" submits a bid of 5 on execution "e1". -/
def dbGoodAfter : DB :=
  { agents := [⟨"a1", 100 - 5, .alive, 0, 0 + 5, [], none⟩],
    workspaces := [],
    bundles := [⟨"bu1", none, none, none, 1, 0, 0, 0, 0, 10⟩],
    bids := [],
    executions := [⟨"e1", "a1", "bu1", "PENDING"⟩],
    transactions := [⟨"a1", "attention_escrow", 5, "Bid for attention slot"⟩],
    prompts := [⟨"prompt-0", "a1", "e1", "question", 5, .pending⟩],
    responses := [], marketStates := [], nextId := 1 }

/-- Witness for C6 (amended): on dbGood a bid of 5 is allowed and its effects
are exactly one escrow Transaction and one new Pending prompt. -/
theorem submit_prompt_gating_witness :
    ((submit_prompt dbGood "a1" "e1" "question" 5).toOption.isSome =
      submitAllowed dbGood "a1" "e1" 5) ∧
    dbGoodAfter.transactions = dbGood.transactions ++
      [⟨"a1", "attention_escrow", 5, "Bid for attention slot"⟩] ∧
    dbGoodAfter.prompts = dbGood.prompts ++ [⟨"prompt-0", "a1", "e1", "question", 5, .pending⟩] := by
  have hrun : submit_prompt dbGood "a1" "e1" "question" 5 =
      .ok (dbGoodAfter, ⟨"prompt-0", "a1", "e1", "question", 5, .pending⟩) := rfl
  have h := submit_prompt_gating dbGood "a1" "e1" "question" 5 dbGoodAfter
    ⟨"prompt-0", "a1", "e1", "question", 5, .pending⟩
  exact ⟨h.1, (h.2 hrun).1, (h.2 hrun).2.1⟩

/-- SPAWN_COST constant (core/genesis.py line 12). -/
def SPAWN_COST : Rat := 10

/-- Directory creation (os.makedirs with exist_ok): records the directory. -/
def FS.mkdirs (fs : FS) (d : String) : FS :=
  if d ∈ fs.dirs then fs else { fs with dirs := fs.dirs ++ [d] }

/-- File write (open(path, "w")): replaces any previous content at the path. -/
def FS.write (fs : FS) (p c : String) : FS :=
  { fs with files := fs.files.filter (fun e => !(decide (e.1 = p))) ++ [(p, c)] }

/-- File read used by the spawn copy step (os.path.exists + shutil.copy2). -/
def FS.readFile (fs : FS) (p : String) : Option String :=
  (fs.files.find? (fun e => decide (e.1 = p))).map (fun e => e.2)

/-- posixpath.basename: everything after the last path separator. -/
def basename (p : String) : String :=
  String.mk ((p.toList.reverse.takeWhile (fun c => !(decide (c = '/')))).reverse)

/-- posixpath.join for a relative second component (the only case genesis
produces, since a basename never contains a separator). -/
def joinPath (a b : String) : String :=
  a ++ "/" ++ b

/-- The payload seeding loop of spawn_child_agent (core/genesis.py lines
113-122): each filename is reduced to its basename; empty basenames are
silently skipped; surviving names are written inside the workspace. -/
def writePayload (fs : FS) (wsPath : String) (payload : List (String × String)) : FS :=
  payload.foldl
    (fun acc e =>
      let safe := basename e.1
      if safe = "" then acc else acc.write (joinPath wsPath safe) e.2)
    fs

/-- The copy step of spawn_child_agent (lines 104-111): main.py and
services.py are copied from the parent workspace when present. -/
def copyStarter (fs : FS) (srcPath dstPath : String) : FS :=
  ["main.py", "services.py"].foldl
    (fun acc fn =>
      match acc.readFile (joinPath srcPath fn) with
      | none => acc
      | some c => acc.write (joinPath dstPath fn) c)
    fs

/-- Helper _create_agent_with_workspace (core/genesis.py lines 15-46): makes
the directory, adds a Workspace row, then adds the Agent row — whose flush
raises IntegrityError when an agent with the same primary key already
exists, aborting the enclosing transaction. -/
def createAgentWithWorkspace (db : DB) (fs : FS) (credit_balance : Rat)
    (spawn_lineage : List String) (filesystem_path : String) (agent_id : String) :
    Except String (DB × FS × Agent) :=
  let fs1 := fs.mkdirs filesystem_path
  let wsid := "ws-" ++ toString db.nextId
  if (findAgent db.agents agent_id).isSome then
    .error "IntegrityError: duplicate agent id"
  else
    let ag : Agent := ⟨agent_id, credit_balance, .alive, 0, 0, spawn_lineage, some wsid⟩
    .ok ({ db with agents := db.agents ++ [ag],
                   workspaces := db.workspaces ++ [⟨wsid, agent_id, filesystem_path⟩],
                   nextId := db.nextId + 1 }, fs1, ag)

/-- create_genesis_agent (core/genesis.py lines 49-64): agent "genesis" with
1000 credits, empty lineage, workspace at workspaces/genesis. -/
def create_genesis_agent (db : DB) (fs : FS) : Except String (DB × FS × Agent) :=
  let fs1 := fs.mkdirs "workspaces"
  createAgentWithWorkspace db fs1 1000 [] "workspaces/genesis" "genesis"

/-- spawn_child_agent (core/genesis.py lines 67-132): locks the parent,
requires balance ≥ SPAWN_COST + initial_credits (raising before any
mutation otherwise), debits the total, records the spawn-fee Transaction to
"SYSTEM", creates the child agent and workspace, copies starter files,
seeds the payload, and records the initial-credits Transaction. -/
def spawn_child_agent (db : DB) (fs : FS) (parent_id : String) (initial_credits : Rat)
    (payload : List (String × String)) : Except String (DB × FS × Agent) :=
  match findAgent db.agents parent_id with
  | none => .error "Parent agent not found"
  | some parent =>
    if parent.credit_balance < SPAWN_COST + initial_credits then
      .error "Insufficient funds for spawning"
    else
      let total_cost := SPAWN_COST + initial_credits
      let agents1 := updateById Agent.id parent_id
        (fun a => { a with credit_balance := a.credit_balance - total_cost,
                           total_credits_spent := a.total_credits_spent + total_cost })
        db.agents
      let db1 : DB := { db with agents := agents1,
                                transactions := db.transactions ++
                                  [⟨parent_id, "SYSTEM", SPAWN_COST, "Agent spawn fee"⟩] }
      let child_id := "child-" ++ toString db1.nextId
      let child_path := joinPath "workspaces" ("agent-" ++ child_id)
      let fs1 := fs.mkdirs "workspaces"
      match createAgentWithWorkspace { db1 with nextId := db1.nextId + 1 } fs1
          initial_credits (parent_id :: parent.spawn_lineage) child_path child_id with
      | .error e => .error e
      | .ok (db2, fs2, child) =>
        let fs3 :=
          match parent.workspace_id with
          | none => fs2
          | some wid =>
            match findWorkspace db.workspaces wid with
            | none => fs2
            | some pws => copyStarter fs2 pws.filesystem_path child_path
        let fs4 := writePayload fs3 child_path payload
        .ok ({ db2 with transactions := db2.transactions ++
                 [⟨parent_id, child_id, initial_credits, "Initial credits for child agent"⟩] },
             fs4, child)

/-- Updating one key leaves lookups of a different key unchanged. -/
theorem findById_updateById_of_ne {α : Type} (key : α → String) (f : α → α)
    (hf : ∀ x, key (f x) = key x) (i j : String) (hij : i ≠ j) (l : List α) :
    findById key i (updateById key j f l) = findById key i l := by
  induction l with
  | nil => rfl
  | cons x xs ih =>
    by_cases hx : key x = j
    · have : ¬ key (f x) = i := by rw [hf, hx]; exact fun h => hij h.symm
      have hxi : ¬ key x = i := by rw [hx]; exact fun h => hij h.symm
      simp [updateById, findById, List.find?, hx, this, hxi, Ne.symm hij]
    · simp only [updateById, if_neg hx, findById, List.find?] at ih ⊢
      cases hdec : decide (key x = i) <;> simp [hdec, ih]

/-- A key found on the left of an append is found in the append. -/
theorem findById_append_left {α : Type} (key : α → String) (i : String)
    (l1 l2 : List α) (x : α) (h : findById key i l1 = some x) :
    findById key i (l1 ++ l2) = some x := by
  induction l1 with
  | nil => simp [findById, List.find?] at h
  | cons y ys ih =>
    by_cases hy : key y = i
    · rw [findById, List.cons_append, List.find?_cons_of_pos _ (by simp [hy])]
      rw [findById, List.find?_cons_of_pos _ (by simp [hy])] at h
      exact h
    · rw [findById, List.cons_append, List.find?_cons_of_neg _ (by simp [hy])]
      rw [findById, List.find?_cons_of_neg _ (by simp [hy])] at h
      exact ih h

/-- A key absent on the left of an append is looked up on the right. -/
theorem findById_append_right {α : Type} (key : α → String) (i : String)
    (l1 l2 : List α) (h : findById key i l1 = none) :
    findById key i (l1 ++ l2) = findById key i l2 := by
  induction l1 with
  | nil => rfl
  | cons y ys ih =>
    by_cases hy : key y = i
    · rw [findById, List.find?_cons_of_pos _ (by simp [hy])] at h
      exact absurd h (by simp)
    · rw [findById, List.find?_cons_of_neg _ (by simp [hy])] at h
      rw [findById, List.cons_append, List.find?_cons_of_neg _ (by simp [hy])]
      exact ih h

/-- C3: spawn conservation.  With the parent present and the generated child
id fresh: if the parent's balance covers SPAWN_COST + C, spawn_child
debits the parent by exactly C + SPAWN_COST, creates a child whose balance
is C, and appends exactly the two Transactions (spawn fee parent→"SYSTEM"
of SPAWN_COST, initial credits parent→child of C); if the balance falls
short, it fails with the insufficient-funds error — the raise precedes the
first mutation and the first filesystem operation, so the parent balance,
the agent table, the transaction log and the filesystem are untouched. -/
theorem spawn_conservation (db : DB) (fs : FS) (parent_id : String) (C : Rat)
    (payload : List (String × String)) (p : Agent)
    (hp : findAgent db.agents parent_id = some p)
    (hfresh : findAgent db.agents ("child-" ++ toString db.nextId) = none) :
    (SPAWN_COST + C ≤ p.credit_balance →
      ((spawn_child_agent db fs parent_id C payload).toOption.map
          (fun r => findAgent r.1.agents parent_id) =
        some (some { p with
          credit_balance := p.credit_balance - (SPAWN_COST + C),
          total_credits_spent := p.total_credits_spent + (SPAWN_COST + C) }) ∧
       (spawn_child_agent db fs parent_id C payload).toOption.map
          (fun r => r.2.2.credit_balance) = some C ∧
       (spawn_child_agent db fs parent_id C payload).toOption.map
          (fun r => (findAgent r.1.agents ("child-" ++ toString db.nextId)).map
            Agent.credit_balance) = some (some C) ∧
       (spawn_child_agent db fs parent_id C payload).toOption.map
          (fun r => r.1.transactions) =
        some (db.transactions ++
          [⟨parent_id, "SYSTEM", SPAWN_COST, "Agent spawn fee"⟩,
           ⟨parent_id, "child-" ++ toString db.nextId, C, "Initial credits for child agent"⟩]))) ∧
    (p.credit_balance < SPAWN_COST + C →
      spawn_child_agent db fs parent_id C payload = .error "Insufficient funds for spawning") := by
  have hne : ("child-" ++ toString db.nextId) ≠ parent_id := by
    intro h
    rw [h, hp] at hfresh
    exact Option.noConfusion hfresh
  have hupd_ne := findById_updateById_of_ne Agent.id
    (fun a : Agent => { a with credit_balance := a.credit_balance - (SPAWN_COST + C),
                               total_credits_spent := a.total_credits_spent + (SPAWN_COST + C) })
    (fun _ => rfl) ("child-" ++ toString db.nextId) parent_id hne db.agents
  have hupd_self := findById_updateById_self Agent.id
    (fun a : Agent => { a with credit_balance := a.credit_balance - (SPAWN_COST + C),
                               total_credits_spent := a.total_credits_spent + (SPAWN_COST + C) })
    (fun _ => rfl) parent_id db.agents
  constructor
  · intro hge
    unfold spawn_child_agent
    simp only [hp]
    rw [if_neg (not_lt.mpr hge)]
    have hstep1 : findAgent (updateById Agent.id parent_id
        (fun a => { a with credit_balance := a.credit_balance - (SPAWN_COST + C),
                           total_credits_spent := a.total_credits_spent + (SPAWN_COST + C) })
        db.agents) ("child-" ++ toString db.nextId) = none := by
      rw [findAgent, hupd_ne]
      exact hfresh
    unfold createAgentWithWorkspace
    simp only [hstep1, Option.isSome_none, Bool.false_eq_true, if_false, Except.toOption,
      Option.map, joinPath]
    have hpar : findById Agent.id parent_id (updateById Agent.id parent_id
        (fun a => { a with credit_balance := a.credit_balance - (SPAWN_COST + C),
                           total_credits_spent := a.total_credits_spent + (SPAWN_COST + C) })
        db.agents) = some { p with
          credit_balance := p.credit_balance - (SPAWN_COST + C),
          total_credits_spent := p.total_credits_spent + (SPAWN_COST + C) } := by
      rw [hupd_self]
      rw [show findById Agent.id parent_id db.agents = some p from hp]
      rfl
    refine ⟨?_, ?_, ?_, ?_⟩
    · rw [show findAgent _ parent_id = some _ from
        findById_append_left Agent.id parent_id _ _ _ hpar]
    · trivial
    · rw [show findAgent _ ("child-" ++ toString db.nextId) = _ from
        findById_append_right Agent.id _ _ _ hstep1]
      simp [findById, List.find?]
    · simp
  · intro hlt
    unfold spawn_child_agent
    simp only [hp]
    rw [if_pos hlt]

/-- Empty filesystem. -/
def fsEmpty : FS :=
  ⟨[], []⟩

/-- Witness database for spawning: one parent agent with 100 credits. -/
def dbSpawn : DB :=
  { agents := [⟨"parent", 100, .alive, 0, 0, [], none⟩],
    workspaces := [], bundles := [], bids := [], executions := [],
    transactions := [], prompts := [], responses := [], marketStates := [],
    nextId := 0 }

/-- Witness for C3: spawning a child with 30 initial credits from a parent
holding 100 gives the child balance 30 and appends exactly the spawn-fee
and initial-credits Transactions. -/
theorem spawn_conservation_witness :
    (spawn_child_agent dbSpawn fsEmpty "parent" 30 []).toOption.map
      (fun r => r.2.2.credit_balance) = some 30 ∧
    (spawn_child_agent dbSpawn fsEmpty "parent" 30 []).toOption.map
      (fun r => r.1.transactions) =
      some (dbSpawn.transactions ++
        [⟨"parent", "SYSTEM", SPAWN_COST, "Agent spawn fee"⟩,
         ⟨"parent", "child-0", 30, "Initial credits for child agent"⟩]) := by
  have h := spawn_conservation dbSpawn fsEmpty "parent" 30 []
    ⟨"parent", 100, .alive, 0, 0, [], none⟩ rfl rfl
  have hs := h.1 (by norm_num [SPAWN_COST])
  exact ⟨hs.2.1, hs.2.2.2⟩

/-- Empty store. -/
def dbEmpty : DB :=
  { agents := [], workspaces := [], bundles := [], bids := [], executions := [],
    transactions := [], prompts := [], responses := [], marketStates := [],
    nextId := 0 }

/-- Counterexample for C9 as stated: the first create_genesis_agent call on
an empty store succeeds, but the second call raises (duplicate primary key
"genesis" at flush) instead of succeeding — create_root is not idempotent;
the existence check lives in the CLI wrapper seed_genesis_agent, not here. -/
theorem create_genesis_twice_counterexample :
    (create_genesis_agent dbEmpty fsEmpty).toOption.isSome = true ∧
    ((create_genesis_agent dbEmpty fsEmpty).toOption.map
      (fun r => (create_genesis_agent r.1 r.2.1).toOption.isSome)) = some false := by
  exact ⟨rfl, rfl⟩

/-- C9 (amended): create_genesis_agent is NOT idempotent.  When no agent
"genesis" exists it creates exactly one such agent with balance 1000, empty
lineage and one workspace at workspaces/genesis; when one already exists the
call fails with a duplicate-id IntegrityError and, the transaction being
rolled back, the store keeps its prior single genesis row. -/
theorem create_genesis_not_idempotent (db : DB) (fs : FS) :
    (findAgent db.agents "genesis" = none →
      ((create_genesis_agent db fs).toOption.map
          (fun r => findAgent r.1.agents "genesis") =
        some (some ⟨"genesis", 1000, .alive, 0, 0, [], some ("ws-" ++ toString db.nextId)⟩) ∧
       (create_genesis_agent db fs).toOption.map (fun r => r.1.workspaces) =
        some (db.workspaces ++ [⟨"ws-" ++ toString db.nextId, "genesis", "workspaces/genesis"⟩]) ∧
       (create_genesis_agent db fs).toOption.map (fun r => r.2.2) =
        some ⟨"genesis", 1000, .alive, 0, 0, [], some ("ws-" ++ toString db.nextId)⟩)) ∧
    (∀ a, findAgent db.agents "genesis" = some a →
      create_genesis_agent db fs = .error "IntegrityError: duplicate agent id") := by
  constructor
  · intro hnone
    unfold create_genesis_agent createAgentWithWorkspace
    simp only [hnone, Option.isSome_none, Bool.false_eq_true, if_false, Except.toOption,
      Option.map]
    refine ⟨?_, trivial, trivial⟩
    rw [show findAgent (db.agents ++
        [⟨"genesis", 1000, .alive, 0, 0, [], some ("ws-" ++ toString db.nextId)⟩]) "genesis" =
        _ from findById_append_right Agent.id _ _ _ hnone]
    simp [findById, List.find?]
  · intro a ha
    unfold create_genesis_agent createAgentWithWorkspace
    simp only [ha, Option.isSome_some, if_true]

/-- Witness for C9 (amended): on the empty store the creation succeeds and
yields exactly the genesis agent with balance 1000 and empty lineage. -/
theorem create_genesis_not_idempotent_witness :
    (create_genesis_agent dbEmpty fsEmpty).toOption.map (fun r => r.2.2) =
      some ⟨"genesis", 1000, .alive, 0, 0, [], some "ws-0"⟩ := by
  exact ((create_genesis_not_idempotent dbEmpty fsEmpty).1 rfl).2.2

/-- A basename never contains a path separator. -/
theorem basename_no_separator (s : String) : '/' ∉ (basename s).data := by
  intro hmem
  unfold basename at hmem
  rw [show (String.mk ((s.toList.reverse.takeWhile
      (fun c => !(decide (c = '/')))).reverse)).data =
    (s.toList.reverse.takeWhile (fun c => !(decide (c = '/')))).reverse from rfl] at hmem
  rw [List.mem_reverse] at hmem
  have := List.mem_takeWhile_imp hmem
  simp at this

/-- One write only adds its own path to the file table. -/
theorem write_paths (fs : FS) (p c : String) (q : String)
    (h : q ∈ (fs.write p c).files.map Prod.fst) :
    q ∈ fs.files.map Prod.fst ∨ q = p := by
  unfold FS.write at h
  simp only [List.map_append, List.mem_append, List.map_cons, List.map_nil,
    List.mem_singleton] at h
  rcases h with h | h
  · left
    rcases List.mem_map.mp h with ⟨e, he, rfl⟩
    exact List.mem_map.mpr ⟨e, (List.mem_filter.mp he).1, rfl⟩
  · right; exact h

/-- C8 (amended): payload filenames are reduced to their basename rather
than rejected; entries whose basename is empty are silently skipped; every
file the payload loop writes sits at the child workspace path joined with a
nonempty, separator-free basename of some payload entry — never anywhere
else. -/
theorem payload_sanitization (fs : FS) (ws : String) (payload : List (String × String)) :
    (∀ s : String, '/' ∉ (basename s).data) ∧
    (∀ pth, pth ∈ (writePayload fs ws payload).files.map Prod.fst →
      pth ∈ fs.files.map Prod.fst ∨
      pth ∈ (payload.filter (fun e => !(decide (basename e.1 = "")))).map
        (fun e => joinPath ws (basename e.1))) ∧
    (∀ f c, basename f = "" → writePayload fs ws [(f, c)] = fs) := by
  refine ⟨basename_no_separator, ?_, ?_⟩
  · intro pth
    induction payload generalizing fs with
    | nil => intro h; exact Or.inl h
    | cons e rest ih =>
      intro h
      unfold writePayload at h
      rw [List.foldl_cons] at h
      by_cases hbn : basename e.1 = ""
      · rw [if_pos hbn] at h
        rcases ih fs (by exact h) with h1 | h1
        · exact Or.inl h1
        · right
          simp only [List.filter_cons, hbn, decide_True, Bool.not_true]
          exact h1
      · rw [if_neg hbn] at h
        rcases ih (fs.write (joinPath ws (basename e.1)) e.2) (by exact h) with h1 | h1
        · rcases write_paths fs _ _ _ h1 with h2 | h2
          · exact Or.inl h2
          · right
            simp only [List.filter_cons, hbn, decide_False, Bool.not_false, if_true,
              List.map_cons, List.mem_cons]
            exact Or.inl h2
        · right
          simp only [List.filter_cons, hbn, decide_False, Bool.not_false, if_true,
            List.map_cons, List.mem_cons]
          exact Or.inr h1
  · intro f c hf
    simp [writePayload, hf]

/-- Counterexample for C8 as stated: a payload entry whose filename contains
a path separator ("sub/evil.txt") is NOT rejected — spawn succeeds and the
file is written (as evil.txt inside the child workspace). -/
theorem payload_separator_counterexample :
    (spawn_child_agent dbSpawn fsEmpty "parent" 30 [("sub/evil.txt", "boom")]).toOption.map
      (fun r => r.2.1.files.map Prod.fst) =
    some [joinPath (joinPath "workspaces" "agent-child-0") "evil.txt"] := by
  have hc : ¬ ((100:Rat) < SPAWN_COST + 30) := by norm_num [SPAWN_COST]
  unfold spawn_child_agent
  simp only [show findAgent dbSpawn.agents "parent" =
      some ⟨"parent", 100, .alive, 0, 0, [], none⟩ from rfl, if_neg hc]
  rfl

/-- Witness for C8 (amended): the separator-bearing name is sanitized to a
separator-free basename, the only written path is the workspace join of
that basename, and a name whose basename is empty writes nothing. -/
theorem payload_sanitization_witness :
    ('/' ∉ (basename "sub/evil.txt").data) ∧
    ("ws/evil.txt" ∈ (fsEmpty.files.map Prod.fst) ∨
      "ws/evil.txt" ∈ (([("sub/evil.txt", "x")].filter
          (fun e => !(decide (basename e.1 = "")))).map
        (fun e => joinPath "ws" (basename e.1)))) ∧
    writePayload fsEmpty "ws" [("dir/", "y")] = fsEmpty := by
  have h := payload_sanitization fsEmpty "ws" [("sub/evil.txt", "x")]
  exact ⟨h.1 "sub/evil.txt", h.2.1 "ws/evil.txt" (by decide), h.2.2 "dir/" "y" rfl⟩

/-- Effects of a successful ledger transfer: exactly one appended
Transaction carrying the transferred amount, which is strictly positive. -/
theorem transfer_ok_effects (db : DB) (from_id to_id : String) (amount : Rat)
    (memo : String) (db' : DB)
    (h : transfer_credits db from_id to_id amount memo = .ok db') :
    db'.transactions = db.transactions ++ [⟨from_id, to_id, amount, memo⟩] ∧ 0 < amount := by
  unfold transfer_credits at h
  by_cases h0 : amount ≤ 0
  · rw [if_pos h0] at h; exact absurd h (by simp)
  rw [if_neg h0] at h
  cases hfa : findAgent db.agents from_id with
  | none => rw [hfa] at h; exact absurd h (by simp)
  | some fa =>
  simp only [hfa] at h
  by_cases hdst : to_id ≠ "system" ∧ (findAgent db.agents to_id).isNone
  · rw [if_pos hdst] at h; exact absurd h (by simp)
  rw [if_neg hdst] at h
  by_cases hbal : fa.credit_balance < amount
  · rw [if_pos hbal] at h; exact absurd h (by simp)
  rw [if_neg hbal] at h
  simp only [Except.ok.injEq] at h
  subst h
  exact ⟨rfl, not_le.mp h0⟩

/-- Effects of a successful reward: two appended Transactions, carrying the
award (a non-negative multiple of in-range scores) and the escrowed bid. -/
theorem reward_ok_effects (db : DB) (pid : String) (si su sud : Rat)
    (reason : Option String) (db' : DB) (resp : Response) (p : Prompt)
    (hp : findPrompt db.prompts pid = some p)
    (h : reward_prompt db pid si su sud reason = .ok (db', resp)) :
    db'.transactions = db.transactions ++
      [⟨"human", p.from_agent_id, resp.credits_awarded, "Reward for prompt"⟩,
       ⟨"attention_escrow", "system", p.bid_amount, "Finalized bid payment for prompt"⟩] ∧
    0 ≤ resp.credits_awarded := by
  unfold reward_prompt at h
  by_cases hi : ¬ (0 ≤ si ∧ si ≤ 10)
  · rw [if_pos hi] at h; exact absurd h (by simp)
  rw [if_neg hi] at h
  by_cases hu : ¬ (0 ≤ su ∧ su ≤ 10)
  · rw [if_pos hu] at h; exact absurd h (by simp)
  rw [if_neg hu] at h
  by_cases hd : ¬ (0 ≤ sud ∧ sud ≤ 10)
  · rw [if_pos hd] at h; exact absurd h (by simp)
  rw [if_neg hd] at h
  simp only [hp] at h
  by_cases hst : p.status = .responded
  · rw [if_pos hst] at h; exact absurd h (by simp)
  rw [if_neg hst] at h
  cases hag : findAgent db.agents p.from_agent_id with
  | none => rw [hag] at h; exact absurd h (by simp)
  | some ag =>
  simp only [hag, Except.ok.injEq, Prod.mk.injEq] at h
  obtain ⟨hdb, hresp⟩ := h
  subst hdb; subst hresp
  refine ⟨rfl, ?_⟩
  obtain ⟨hsi0, -⟩ := not_not.mp hi
  obtain ⟨hsu0, -⟩ := not_not.mp hu
  obtain ⟨hsd0, -⟩ := not_not.mp hd
  have h1 := mul_nonneg hsi0
    (by norm_num [ATTENTION_CONVERSION_RATES] :
      (0:Rat) ≤ ATTENTION_CONVERSION_RATES.interesting)
  have h2 := mul_nonneg hsu0
    (by norm_num [ATTENTION_CONVERSION_RATES] :
      (0:Rat) ≤ ATTENTION_CONVERSION_RATES.useful)
  have h3 := mul_nonneg hsd0
    (by norm_num [ATTENTION_CONVERSION_RATES] :
      (0:Rat) ≤ ATTENTION_CONVERSION_RATES.understandable)
  exact add_nonneg (add_nonneg h1 h2) h3

/-- Effects of a successful spawn: exactly two appended Transactions, the
spawn fee (strictly positive) and the initial credits. -/
theorem spawn_ok_effects (db : DB) (fs : FS) (parent_id : String) (C : Rat)
    (payload : List (String × String)) (db' : DB) (fs' : FS) (child : Agent)
    (h : spawn_child_agent db fs parent_id C payload = .ok (db', fs', child)) :
    db'.transactions = db.transactions ++
      [⟨parent_id, "SYSTEM", SPAWN_COST, "Agent spawn fee"⟩,
       ⟨parent_id, child.id, C, "Initial credits for child agent"⟩] ∧
    0 < SPAWN_COST := by
  unfold spawn_child_agent at h
  cases hpar : findAgent db.agents parent_id with
  | none => rw [hpar] at h; exact absurd h (by simp)
  | some parent =>
  simp only [hpar] at h
  by_cases hbal : parent.credit_balance < SPAWN_COST + C
  · rw [if_pos hbal] at h; exact absurd h (by simp)
  rw [if_neg hbal] at h
  unfold createAgentWithWorkspace at h
  by_cases hdup : (findAgent (updateById Agent.id parent_id
      (fun a => { a with credit_balance := a.credit_balance - (SPAWN_COST + C),
                         total_credits_spent := a.total_credits_spent + (SPAWN_COST + C) })
      db.agents) ("child-" ++ toString db.nextId)).isSome
  · rw [if_pos hdup] at h; exact absurd h (by simp)
  rw [if_neg hdup] at h
  simp only [Except.ok.injEq, Prod.mk.injEq] at h
  obtain ⟨hdb, hfs, hchild⟩ := h
  subst hdb
  constructor
  · rw [← hchild]
    simp
  · norm_num [SPAWN_COST]

/-- Counterexample for C7 as stated: submitting a prompt with bid_amount 0
(which submit_prompt allows, requiring only bid_amount ≥ 0) appends a
Transaction whose amount is 0, not strictly positive. -/
theorem zero_amount_transaction_counterexample :
    (submit_prompt dbGood "a1" "e1" "q" 0).toOption.map
      (fun r => r.1.transactions.map Transaction.amount) = some [0] ∧
    ¬ ((0:Rat) > 0) := by
  exact ⟨rfl, by norm_num⟩

/-- C7 (amended): only the Ledger transfer primitive guarantees strictly
positive Transaction amounts; auction clearing appends no Transactions at
all, while prompt submission, prompt reward and spawning append Transactions
carrying exactly the operation's amounts — bid_amount (≥ 0, possibly 0),
credits_awarded (≥ 0, possibly 0) with the prompt's escrowed bid_amount,
and SPAWN_COST (> 0) with initial_credits (unchecked, possibly 0). -/
theorem transaction_amount_policy :
    (∀ (db : DB) (f t m : String) (amt : Rat) (db' : DB),
      transfer_credits db f t amt m = .ok db' →
      db'.transactions = db.transactions ++ [⟨f, t, amt, m⟩] ∧ 0 < amt) ∧
    (∀ (db : DB) (aid eid c : String) (amt : Rat) (db' : DB) (pr : Prompt),
      submit_prompt db aid eid c amt = .ok (db', pr) →
      db'.transactions = db.transactions ++
        [⟨aid, "attention_escrow", amt, "Bid for attention slot"⟩] ∧ 0 ≤ amt) ∧
    (∀ (db : DB) (pid : String) (si su sud : Rat) (r : Option String)
        (db' : DB) (resp : Response) (p : Prompt),
      findPrompt db.prompts pid = some p →
      reward_prompt db pid si su sud r = .ok (db', resp) →
      db'.transactions = db.transactions ++
        [⟨"human", p.from_agent_id, resp.credits_awarded, "Reward for prompt"⟩,
         ⟨"attention_escrow", "system", p.bid_amount, "Finalized bid payment for prompt"⟩] ∧
      0 ≤ resp.credits_awarded) ∧
    (∀ (db : DB) (fs : FS) (parent_id : String) (C : Rat)
        (payload : List (String × String)) (db' : DB) (fs' : FS) (child : Agent),
      spawn_child_agent db fs parent_id C payload = .ok (db', fs', child) →
      db'.transactions = db.transactions ++
        [⟨parent_id, "SYSTEM", SPAWN_COST, "Agent spawn fee"⟩,
         ⟨parent_id, child.id, C, "Initial credits for child agent"⟩] ∧
      0 < SPAWN_COST) := by
  refine ⟨?_, ?_, ?_, ?_⟩
  · intro db f t m amt db' h
    exact transfer_ok_effects db f t amt m db' h
  · intro db aid eid c amt db' pr h
    obtain ⟨h1, -, -, h4, -⟩ := submit_ok_effects db aid eid c amt db' pr h
    exact ⟨h1, h4⟩
  · intro db pid si su sud r db' resp p hp h
    exact reward_ok_effects db pid si su sud r db' resp p hp h
  · intro db fs parent_id C payload db' fs' child h
    exact spawn_ok_effects db fs parent_id C payload db' fs' child h

/-- Witness for C7 (amended): a concrete successful transfer of 5 credits
from "a1" to "system" appends exactly one Transaction of the positive
amount 5. -/
theorem transaction_amount_policy_witness :
    (transfer_credits dbLedger "a1" "system" 5 "burn").toOption.map DB.transactions =
      some (dbLedger.transactions ++ [⟨"a1", "system", 5, "burn"⟩]) ∧
    (0:Rat) < 5 := by
  have hrun : transfer_credits dbLedger "a1" "system" 5 "burn" =
      .ok { dbLedger with
              agents := [⟨"a1", 10 - 5, .alive, 0, 0 + 5, [], none⟩],
              transactions := dbLedger.transactions ++ [⟨"a1", "system", 5, "burn"⟩] } := by
    unfold transfer_credits
    rw [if_neg (by norm_num)]
    simp only [show findAgent dbLedger.agents "a1" =
        some ⟨"a1", 10, .alive, 0, 0, [], none⟩ from rfl]
    rw [if_neg (by simp)]
    rw [if_neg (by norm_num)]
    rfl
  have h := (transaction_amount_policy.1) dbLedger "a1" "system" "burn" 5 _ hrun
  exact ⟨by rw [hrun]; rfl, h.2⟩

/-- Python truthiness fallback `a or b` on floats: a unless a is 0. -/
def pyOr (a b : Rat) : Rat :=
  if a = 0 then b else a

/-- Legacy-field fallback `x / denom if x else 0.0` on a nullable float. -/
def legacyOf (o : Option Rat) (denom : Rat) : Rat :=
  match o with
  | none => 0
  | some c => if c = 0 then 0 else c / denom

/-- The capacity requirement vector of a bundle (core/scheduler.py lines
68-73): capacity-fraction fields with fallback to the legacy absolute
fields divided by the legacy supply constants. -/
def bidReq (b : ResourceBundle) : ResourceType → Rat
  | .cpu => pyOr b.cpu_percent (legacyOf b.cpu_seconds 10)
  | .memory => pyOr b.memory_percent (legacyOf b.memory_mb 1024)
  | .tokens => pyOr b.tokens_percent (legacyOf b.tokens 1000000)
  | .attention => pyOr b.attention_percent b.attention_share

/-- The supply dict built from the MarketState rows (line 56): later rows
with the same resource type overwrite earlier ones, absent types are
absent keys. -/
def supplyOf (rows : List MarketState) (rt : ResourceType) : Option Rat :=
  ((rows.filter (fun m => decide (m.resource_type = rt))).getLast?).map
    MarketState.available_supply

/-- A per-resource accumulator (consumed supply, credit totals and
capacity-second totals are each one of these). -/
structure RVec where
  cpu : Rat
  memory : Rat
  tokens : Rat
  attention : Rat
deriving Repr

/-- Component projection of an accumulator. -/
def RVec.get (v : RVec) : ResourceType → Rat
  | .cpu => v.cpu
  | .memory => v.memory
  | .tokens => v.tokens
  | .attention => v.attention

/-- The zero accumulator (dict.fromkeys(..., 0.0)). -/
def RVec.zero : RVec :=
  ⟨0, 0, 0, 0⟩

/-- One pass of the per-resource accumulation loop (lines 99-104): for each
of the four resource types whose guard holds (requirement > 0 and the type
present in the market dict), add the loop's amount for that type. -/
def accAll (v : RVec) (g : ResourceType → Bool) (amt : ResourceType → Rat) : RVec :=
  { cpu := v.cpu + (if g .cpu then amt .cpu else 0),
    memory := v.memory + (if g .memory then amt .memory else 0),
    tokens := v.tokens + (if g .tokens then amt .tokens else 0),
    attention := v.attention + (if g .attention then amt .attention else 0) }

/-- The guard of the accumulation loop and of the feasibility check. -/
def reqGuard (supply : ResourceType → Option Rat) (req : ResourceType → Rat)
    (rt : ResourceType) : Bool :=
  decide (req rt > 0) && (supply rt).isSome

/-- The feasibility check of the clearing loop (lines 75-79): a bid fits if
for every resource with positive requirement and a present market row,
consumed + requirement does not exceed supply. -/
def canFit (supply : ResourceType → Option Rat) (consumed : RVec)
    (req : ResourceType → Rat) : Bool :=
  [ResourceType.cpu, .memory, .tokens, .attention].all fun rt =>
    match supply rt with
    | none => true
    | some s => if req rt > 0 then decide (consumed.get rt + req rt ≤ s) else true

/-- The running state of one clearing pass. -/
structure CycleState where
  agents : List Agent
  executions : List Execution
  processed : List Bid
  consumed : RVec
  credits : RVec
  capsecs : RVec
  nextId : Nat

/-- Processing of a single pending bid (lines 63-113, event emission
omitted): reject when the bundle does not fit or the agent's live balance
is short; on admission create a Pending Execution, link it, debit the
agent's balance directly (no Ledger call, no Transaction), and accumulate
consumed supply, credits and capacity-seconds for every requested resource.
A missing bundle or (for a fitting bid) missing agent row aborts the whole
cycle, as the Python attribute error would. -/
def processBid (db : DB) (supply : ResourceType → Option Rat) (st : CycleState)
    (bid : Bid) : Except String CycleState :=
  match findBundle db.bundles bid.resource_bundle_id with
  | none => .error "bundle not found"
  | some bundle =>
    let req := bidReq bundle
    if canFit supply st.consumed req then
      match findAgent st.agents bid.from_agent_id with
      | none => .error "agent not found"
      | some ag =>
        if ag.credit_balance < bid.amount then
          .ok { st with processed := st.processed ++ [{ bid with status := .outbid }] }
        else
          let eid := "exec-" ++ toString st.nextId
          let g := reqGuard supply req
          .ok { agents := updateById Agent.id bid.from_agent_id
                  (fun a => { a with credit_balance := a.credit_balance - bid.amount })
                  st.agents,
                executions := st.executions ++
                  [⟨eid, bid.from_agent_id, bid.resource_bundle_id, "PENDING"⟩],
                processed := st.processed ++
                  [{ bid with status := .winning, execution_id := some eid }],
                consumed := accAll st.consumed g req,
                credits := accAll st.credits g (fun _ => bid.amount),
                capsecs := accAll st.capsecs g (fun rt => req rt * bundle.duration_seconds),
                nextId := st.nextId + 1 }
    else
      .ok { st with processed := st.processed ++ [{ bid with status := .outbid }] }

/-- The clearing loop over the sorted pending bids. -/
def clearLoop (db : DB) (supply : ResourceType → Option Rat) :
    CycleState → List Bid → Except String CycleState
  | st, [] => .ok st
  | st, b :: bs =>
    match processBid db supply st b with
    | .error e => .error e
    | .ok st' => clearLoop db supply st' bs

/-- The pending bids read at the start of the cycle (line 49). -/
def pendingBids (db : DB) : List Bid :=
  db.bids.filter (fun b => decide (b.status = .pending))

/-- Stable insertion of a bid into a list sorted by amount descending: the
bid goes after every element with an equal or higher amount. -/
def insertDesc (b : Bid) : List Bid → List Bid
  | [] => [b]
  | x :: xs => if x.amount < b.amount then b :: x :: xs else x :: insertDesc b xs

/-- The sort of line 52: list.sort with key amount and reverse=True is a
stable sort by amount descending — ties keep the order in which the store
returned the rows (NOT timestamp order). -/
def sortBids (l : List Bid) : List Bid :=
  l.foldl (fun acc b => insertDesc b acc) []

/-- The MarketState update at the end of the cycle (lines 128-146): set
utilization to the consumed supply, and replace the price by raw
total_credits / total_capacity_seconds whenever capacity-seconds are
positive — with NO clamping. -/
def updateMarkets (st : CycleState) (rows : List MarketState) : List MarketState :=
  rows.map fun ms =>
    if st.capsecs.get ms.resource_type > 0 then
      { ms with current_utilization := st.consumed.get ms.resource_type,
                current_market_price :=
                  st.credits.get ms.resource_type / st.capsecs.get ms.resource_type }
    else { ms with current_utilization := st.consumed.get ms.resource_type }

/-- The initial clearing state of a cycle. -/
def initState (db : DB) : CycleState :=
  ⟨db.agents, db.executions, [], .zero, .zero, .zero, db.nextId⟩

/-- AllocationScheduler.run_allocation_cycle (core/scheduler.py lines
46-148, event emission omitted): sort pending bids by amount descending
(stable), clear them against capacity and live balances, then update every
MarketState row's utilization and (unclamped) discovered price, committing
everything at once. -/
def run_allocation_cycle (db : DB) : Except String DB :=
  match clearLoop db (supplyOf db.marketStates) (initState db) (sortBids (pendingBids db)) with
  | .error e => .error e
  | .ok st =>
    .ok { db with
            agents := st.agents,
            bids := db.bids.filter (fun b => !(decide (b.status = .pending))) ++ st.processed,
            executions := st.executions,
            marketStates := updateMarkets st db.marketStates,
            nextId := st.nextId }

/-- MIN_PRICE constant (domain/market.py line 19). -/
def MIN_PRICE : Rat :=
  1 / 100

/-- MAX_PRICE constant (domain/market.py line 20). -/
def MAX_PRICE : Rat :=
  1000

/-- MarketManager.update_prices (domain/market.py lines 26-38), the
separate system-loop step that clamps every stored price into
[MIN_PRICE, MAX_PRICE]. -/
def update_prices (states : List MarketState) : List MarketState :=
  states.map fun s =>
    { s with current_market_price := max MIN_PRICE (min MAX_PRICE s.current_market_price) }

/-- Inserting permutes: the result holds the new bid and the old ones. -/
theorem insertDesc_perm (b : Bid) (l : List Bid) : List.Perm (insertDesc b l) (b :: l) := by
  induction l with
  | nil => exact List.Perm.refl _
  | cons x xs ih =>
    unfold insertDesc
    by_cases hx : x.amount < b.amount
    · rw [if_pos hx]
    · rw [if_neg hx]
      exact ((ih.cons x).trans (List.Perm.swap b x xs))

/-- Insertion preserves sortedness by amount descending. -/
theorem insertDesc_pairwise (b : Bid) (l : List Bid)
    (hl : l.Pairwise (fun x y => y.amount ≤ x.amount)) :
    (insertDesc b l).Pairwise (fun x y => y.amount ≤ x.amount) := by
  induction l with
  | nil => simp [insertDesc]
  | cons x xs ih =>
    rw [List.pairwise_cons] at hl
    obtain ⟨hx, hxs⟩ := hl
    unfold insertDesc
    by_cases hlt : x.amount < b.amount
    · rw [if_pos hlt]
      refine List.Pairwise.cons ?_ (List.Pairwise.cons hx hxs)
      intro y hy
      rcases List.mem_cons.mp hy with rfl | hy2
      · exact le_of_lt hlt
      · exact (hx y hy2).trans (le_of_lt hlt)
    · rw [if_neg hlt]
      refine List.Pairwise.cons ?_ (ih hxs)
      intro y hy
      rcases List.mem_cons.mp ((insertDesc_perm b xs).mem_iff.mp hy) with rfl | hy2
      · exact not_lt.mp hlt
      · exact hx y hy2

/-- Insertion is stable: within one amount class, the new bid lands strictly
after all bids already present (given the list is sorted descending). -/
theorem insertDesc_filter (b : Bid) (a : Rat) (l : List Bid)
    (hl : l.Pairwise (fun x y => y.amount ≤ x.amount)) :
    (insertDesc b l).filter (fun x => decide (x.amount = a)) =
      l.filter (fun x => decide (x.amount = a)) ++
        (if b.amount = a then [b] else []) := by
  induction l with
  | nil =>
    by_cases hb : b.amount = a <;> simp [insertDesc, hb]
  | cons x xs ih =>
    rw [List.pairwise_cons] at hl
    obtain ⟨hx, hxs⟩ := hl
    unfold insertDesc
    by_cases hlt : x.amount < b.amount
    · rw [if_pos hlt]
      by_cases hb : b.amount = a
      · have hempty : (x :: xs).filter (fun y => decide (y.amount = a)) = [] := by
          rw [List.filter_eq_nil_iff]
          intro y hy
          simp only [decide_eq_true_eq]
          intro hya
          rcases List.mem_cons.mp hy with rfl | hy2
          · rw [← hb] at hya
            exact absurd hya (ne_of_lt hlt)
          · have := hx y hy2
            rw [hya, ← hb] at this
            exact absurd (lt_of_lt_of_le hlt this) (lt_irrefl _)
        rw [List.filter_cons, if_pos (by simp [hb]), hempty]
        simp [hb]
      · rw [List.filter_cons, if_neg (by simp [hb]), if_neg hb, List.append_nil]
    · rw [if_neg hlt]
      by_cases hxa : x.amount = a
      · rw [List.filter_cons, List.filter_cons, if_pos (by simp [hxa]),
          if_pos (by simp [hxa]), ih hxs, List.cons_append]
      · rw [List.filter_cons, List.filter_cons, if_neg (by simp [hxa]),
          if_neg (by simp [hxa]), ih hxs]

/-- Folding insertions keeps sortedness. -/
theorem foldl_insertDesc_pairwise (l : List Bid) (acc : List Bid)
    (hacc : acc.Pairwise (fun x y => y.amount ≤ x.amount)) :
    (l.foldl (fun acc b => insertDesc b acc) acc).Pairwise
      (fun x y => y.amount ≤ x.amount) := by
  induction l generalizing acc with
  | nil => exact hacc
  | cons b bs ih => exact ih _ (insertDesc_pairwise b acc hacc)

/-- Folding insertions is a permutation of prefix and input. -/
theorem foldl_insertDesc_perm (l : List Bid) (acc : List Bid) :
    List.Perm (l.foldl (fun acc b => insertDesc b acc) acc) (acc ++ l) := by
  induction l generalizing acc with
  | nil => simp
  | cons b bs ih =>
    rw [List.foldl_cons]
    exact (ih _).trans (((insertDesc_perm b acc).append_right bs).trans List.perm_middle.symm)

/-- Folding insertions is stable on every amount class. -/
theorem foldl_insertDesc_filter (a : Rat) (l : List Bid) (acc : List Bid)
    (hacc : acc.Pairwise (fun x y => y.amount ≤ x.amount)) :
    (l.foldl (fun acc b => insertDesc b acc) acc).filter (fun x => decide (x.amount = a)) =
      acc.filter (fun x => decide (x.amount = a)) ++
        l.filter (fun x => decide (x.amount = a)) := by
  induction l generalizing acc with
  | nil => simp
  | cons b bs ih =>
    rw [List.foldl_cons, ih _ (insertDesc_pairwise b acc hacc),
      insertDesc_filter b a acc hacc, List.filter_cons]
    by_cases hb : b.amount = a
    · rw [if_pos hb, if_pos (by simp [hb]), List.append_assoc, List.singleton_append]
    · rw [if_neg hb, if_neg (by simp [hb]), List.append_nil]

/-- C5 (amended): the Auctioneer sorts pending bids by amount descending
with a STABLE sort — bids of equal amount are considered in the order the
store returned them, not by timestamp; the sorted list is a permutation of
the input, is sorted by amount descending, and each amount class appears in
exactly its original order. -/
theorem bid_sort_stable_by_amount (l : List Bid) :
    List.Perm (sortBids l) l ∧
    (sortBids l).Pairwise (fun x y => y.amount ≤ x.amount) ∧
    (∀ a : Rat, (sortBids l).filter (fun x => decide (x.amount = a)) =
      l.filter (fun x => decide (x.amount = a))) := by
  refine ⟨?_, ?_, ?_⟩
  · simpa [sortBids] using foldl_insertDesc_perm l []
  · exact foldl_insertDesc_pairwise l [] (List.Pairwise.nil)
  · intro a
    simpa [sortBids] using foldl_insertDesc_filter a l [] (List.Pairwise.nil)

/-- Counterexample database for C5: two pending bids of EQUAL amount 10 on
two all-of-attention bundles (supply 1); the store returns the
later-timestamped bid "bidL" (t=5) before the earlier "bidE" (t=3). -/
def dbTie : DB :=
  { agents := [⟨"a1", 100, .alive, 0, 0, [], none⟩, ⟨"a2", 100, .alive, 0, 0, [], none⟩],
    workspaces := [],
    bundles := [⟨"buA", none, none, none, 0, 0, 0, 0, 1, 1⟩,
                ⟨"buB", none, none, none, 0, 0, 0, 0, 1, 1⟩],
    bids := [⟨"bidL", "a1", "buA", 10, .pending, none, 5⟩,
             ⟨"bidE", "a2", "buB", 10, .pending, none, 3⟩],
    executions := [], transactions := [], prompts := [], responses := [],
    marketStates := [⟨.attention, 1, 0, 10⟩],
    nextId := 0 }

/-- Counterexample for C5 as stated: both bids have amount 10, bidE has the
earlier timestamp (3 < 5), capacity admits exactly one of them — yet the
later-timestamped bidL is considered first (store order, stable sort) and
wins, while bidE is Outbid.  Ties are NOT broken by earliest timestamp. -/
theorem tie_break_counterexample :
    (run_allocation_cycle dbTie).toOption.map
      (fun d => d.bids.map (fun b => (b.id, b.status, b.timestamp, b.amount))) =
      some [("bidL", BdStatus.winning, 5, 10), ("bidE", BdStatus.outbid, 3, 10)] ∧
    (3:Nat) < 5 := by
  constructor
  · norm_num +decide [run_allocation_cycle, pendingBids, sortBids, insertDesc, supplyOf,
      initState, clearLoop, processBid, canFit, bidReq, pyOr, legacyOf, reqGuard, accAll,
      RVec.get, RVec.zero, findAgent, findBundle, findById, List.find?, updateById,
      updateMarkets, dbTie, Except.toOption]
  · norm_num

/-- Sum of all agent balances. -/
def totalBalance (l : List Agent) : Rat :=
  (l.map Agent.credit_balance).sum

/-- Sum of the amounts of all Winning bids in a list. -/
def winningSum (l : List Bid) : Rat :=
  ((l.filter (fun b => decide (b.status = .winning))).map Bid.amount).sum

/-- A winning bid is linked to a Pending Execution owned by its agent. -/
def winnerLinked (execs : List Execution) (b : Bid) : Prop :=
  b.status = .winning →
    ∃ e ∈ execs, b.execution_id = some e.id ∧ e.status = "PENDING" ∧
      e.agent_id = b.from_agent_id

/-- Capacity-seconds a bid contributes to resource rt when admitted:
requirement × duration, guarded exactly as the accumulation loop is. -/
def capSecOf (db : DB) (supply : ResourceType → Option Rat) (b : Bid)
    (rt : ResourceType) : Rat :=
  match findBundle db.bundles b.resource_bundle_id with
  | none => 0
  | some bd =>
    if reqGuard supply (bidReq bd) rt then bidReq bd rt * bd.duration_seconds else 0

/-- Total capacity-seconds of the Winning bids of a list on resource rt. -/
def winnersCapSec (db : DB) (supply : ResourceType → Option Rat) (l : List Bid)
    (rt : ResourceType) : Rat :=
  ((l.filter (fun b => decide (b.status = .winning))).map
    (fun b => capSecOf db supply b rt)).sum

/-- Componentwise value of one accumulation pass. -/
theorem accAll_get (v : RVec) (g : ResourceType → Bool) (amt : ResourceType → Rat)
    (rt : ResourceType) :
    (accAll v g amt).get rt = v.get rt + (if g rt then amt rt else 0) := by
  cases rt <;> rfl

/-- Debiting a present agent lowers the balance total by the debit. -/
theorem totalBalance_debit (l : List Agent) (i : String) (amt : Rat) (a : Agent)
    (h : findById Agent.id i l = some a) :
    totalBalance (updateById Agent.id i
      (fun x => { x with credit_balance := x.credit_balance - amt }) l) =
    totalBalance l - amt := by
  induction l with
  | nil => simp [findById, List.find?] at h
  | cons x xs ih =>
    by_cases hx : x.id = i
    · simp only [updateById, if_pos hx, totalBalance, List.map_cons, List.sum_cons]
      ring
    · simp only [findById, List.find?, hx, decide_False] at h
      simp only [updateById, if_neg hx, totalBalance, List.map_cons, List.sum_cons]
      have := ih (by simpa [findById] using h)
      simp only [totalBalance] at this
      rw [this]
      ring

/-- Appending one bid adds its winning amount (or nothing) to the sum. -/
theorem winningSum_append_single (l : List Bid) (b : Bid) :
    winningSum (l ++ [b]) = winningSum l + (if b.status = .winning then b.amount else 0) := by
  by_cases hb : b.status = .winning <;>
    simp [winningSum, List.filter_append, List.filter_cons, hb]

/-- Appending one bid adds its winning capacity-seconds (or nothing). -/
theorem winnersCapSec_append_single (db : DB) (supply : ResourceType → Option Rat)
    (l : List Bid) (b : Bid) (rt : ResourceType) :
    winnersCapSec db supply (l ++ [b]) rt = winnersCapSec db supply l rt +
      (if b.status = .winning then capSecOf db supply b rt else 0) := by
  by_cases hb : b.status = .winning <;>
    simp [winnersCapSec, List.filter_append, List.filter_cons, hb]

/-- Everything one successful bid-processing step does, packaged: exactly
one bid is appended to the processed list; execution rows only grow; a new
winner is linked to a fresh Pending execution; the balance total drops by
the winner's amount (only); and each capacity-second accumulator grows by
exactly the winner's guarded contribution. -/
theorem processBid_ok_step (db : DB) (supply : ResourceType → Option Rat)
    (st : CycleState) (b : Bid) (st' : CycleState)
    (h : processBid db supply st b = .ok st') :
    ∃ nb : Bid,
      st'.processed = st.processed ++ [nb] ∧
      (∀ e ∈ st.executions, e ∈ st'.executions) ∧
      winnerLinked st'.executions nb ∧
      totalBalance st'.agents =
        totalBalance st.agents - (if nb.status = .winning then nb.amount else 0) ∧
      (∀ rt, st'.capsecs.get rt = st.capsecs.get rt +
        (if nb.status = .winning then capSecOf db supply nb rt else 0)) := by
  unfold processBid at h
  cases hbd : findBundle db.bundles b.resource_bundle_id with
  | none => rw [hbd] at h; exact absurd h (by simp)
  | some bundle =>
  simp only [hbd] at h
  by_cases hfit : canFit supply st.consumed (bidReq bundle)
  · rw [if_pos hfit] at h
    cases hag : findAgent st.agents b.from_agent_id with
    | none => rw [hag] at h; exact absurd h (by simp)
    | some ag =>
    simp only [hag] at h
    by_cases hbal : ag.credit_balance < b.amount
    · rw [if_pos hbal] at h
      simp only [Except.ok.injEq] at h
      subst h
      refine ⟨{ b with status := .outbid }, rfl, fun e he => he, ?_, ?_, ?_⟩
      · intro hw; exact absurd hw (by simp)
      · simp
      · intro rt; simp
    · rw [if_neg hbal] at h
      simp only [Except.ok.injEq] at h
      subst h
      refine ⟨{ b with status := .winning,
                       execution_id := some ("exec-" ++ toString st.nextId) },
        rfl, ?_, ?_, ?_, ?_⟩
      · intro e he
        exact List.mem_append.mpr (Or.inl he)
      · intro _
        refine ⟨⟨"exec-" ++ toString st.nextId, b.from_agent_id,
          b.resource_bundle_id, "PENDING"⟩, ?_, rfl, rfl, rfl⟩
        exact List.mem_append.mpr (Or.inr (List.mem_singleton.mpr rfl))
      · have hdebit := totalBalance_debit st.agents b.from_agent_id b.amount ag hag
        simp only [if_pos rfl]
        exact hdebit
      · intro rt
        simp only [accAll_get, capSecOf, hbd, if_pos rfl, if_true]
  · rw [if_neg hfit] at h
    simp only [Except.ok.injEq] at h
    subst h
    refine ⟨{ b with status := .outbid }, rfl, fun e he => he, ?_, ?_, ?_⟩
    · intro hw; exact absurd hw (by simp)
    · simp
    · intro rt; simp

/-- Invariants carried through the whole clearing loop: balance total plus
winning amounts is conserved, execution rows only grow, every processed bid
either predates the loop or is winner-linked, and the capacity-second
accumulator grows by exactly the winners' capacity-seconds. -/
theorem clearLoop_invariants (db : DB) (supply : ResourceType → Option Rat)
    (bids : List Bid) :
    ∀ st st', clearLoop db supply st bids = .ok st' →
      totalBalance st'.agents + winningSum st'.processed =
        totalBalance st.agents + winningSum st.processed ∧
      (∀ e ∈ st.executions, e ∈ st'.executions) ∧
      (∀ b' ∈ st'.processed, b' ∈ st.processed ∨ winnerLinked st'.executions b') ∧
      (∀ rt, st'.capsecs.get rt + winnersCapSec db supply st.processed rt =
        st.capsecs.get rt + winnersCapSec db supply st'.processed rt) := by
  induction bids with
  | nil =>
    intro st st' h
    simp only [clearLoop, Except.ok.injEq] at h
    subst h
    exact ⟨rfl, fun e he => he, fun b' hb' => Or.inl hb', fun rt => rfl⟩
  | cons b bs ih =>
    intro st st' h
    unfold clearLoop at h
    cases hstep : processBid db supply st b with
    | error e => rw [hstep] at h; exact absurd h (by simp)
    | ok st1 =>
    rw [hstep] at h
    obtain ⟨hbal, hexec, hproc, hcap⟩ := ih st1 st' h
    obtain ⟨nb, hnb, hexec1, hlink, hbal1, hcap1⟩ :=
      processBid_ok_step db supply st b st1 hstep
    refine ⟨?_, ?_, ?_, ?_⟩
    · rw [hbal, hbal1, hnb, winningSum_append_single]
      ring
    · intro e he
      exact hexec e (hexec1 e he)
    · intro b' hb'
      rcases hproc b' hb' with hin | hlinked
      · rw [hnb] at hin
        rcases List.mem_append.mp hin with hin2 | hin2
        · exact Or.inl hin2
        · right
          rw [List.mem_singleton.mp hin2]
          intro hw
          obtain ⟨e, he, h1, h2, h3⟩ := hlink hw
          exact ⟨e, hexec e he, h1, h2, h3⟩
      · exact Or.inr hlinked
    · intro rt
      have h1 := hcap rt
      have h2 := hcap1 rt
      rw [hnb, winnersCapSec_append_single] at h1
      linarith [h1, h2]

/-- Winning sums add over appends. -/
theorem winningSum_append (l1 l2 : List Bid) :
    winningSum (l1 ++ l2) = winningSum l1 + winningSum l2 := by
  simp [winningSum, List.filter_append]

/-- Dropping the Pending bids does not change the winning sum (a Winning
bid is never Pending). -/
theorem winningSum_filter_nonpending (l : List Bid) :
    winningSum (l.filter (fun b => !(decide (b.status = .pending)))) = winningSum l := by
  induction l with
  | nil => rfl
  | cons b bs ih =>
    by_cases hb : b.status = .pending
    · have hw : ¬ b.status = .winning := by rw [hb]; simp
      simp [winningSum, List.filter_cons, hb, hw] at ih ⊢
      exact ih
    · by_cases hw : b.status = .winning <;>
        simp [winningSum, List.filter_cons, hb, hw] at ih ⊢ <;>
        simp [ih]

/-- C1 (amended): the allocation cycle records NO Transactions at all — the
winners' debits are direct balance decrements.  Every winner admitted
during the cycle is debited by exactly its bid amount (the total of agent
balances drops by exactly the total of newly-Winning amounts), and every
newly Winning bid is linked via execution_id to a Pending Execution for its
agent.  The claimed per-winner agent→SYSTEM "bid" Transactions do not
exist, so their sum is 0, not the sum of winning amounts. -/
theorem allocation_cycle_accounting (db db' : DB)
    (h : run_allocation_cycle db = .ok db') :
    db'.transactions = db.transactions ∧
    totalBalance db.agents - totalBalance db'.agents =
      winningSum db'.bids - winningSum db.bids ∧
    (∀ b ∈ db'.bids, b.status = .winning → b ∈ db.bids ∨
      ∃ e ∈ db'.executions, b.execution_id = some e.id ∧ e.status = "PENDING" ∧
        e.agent_id = b.from_agent_id) := by
  unfold run_allocation_cycle at h
  cases hcl : clearLoop db (supplyOf db.marketStates) (initState db)
      (sortBids (pendingBids db)) with
  | error e => rw [hcl] at h; exact absurd h (by simp)
  | ok st =>
  rw [hcl] at h
  simp only [Except.ok.injEq] at h
  subst h
  obtain ⟨hbal, hexec, hproc, hcap⟩ :=
    clearLoop_invariants db (supplyOf db.marketStates) (sortBids (pendingBids db))
      (initState db) st hcl
  simp only [initState] at hbal hexec hproc hcap
  refine ⟨rfl, ?_, ?_⟩
  · have h1 : winningSum (db.bids.filter (fun b => !(decide (b.status = .pending)))
        ++ st.processed) = winningSum db.bids + winningSum st.processed := by
      rw [winningSum_append, winningSum_filter_nonpending]
    have h0 : winningSum ([] : List Bid) = 0 := rfl
    rw [h0] at hbal
    simp only [h1]
    linarith [hbal]
  · intro b hb hw
    rcases List.mem_append.mp hb with h1 | h1
    · exact Or.inl (List.mem_of_mem_filter h1)
    · rcases hproc b h1 with hin | hlink
      · exact absurd hin (List.not_mem_nil b)
      · exact Or.inr (hlink hw)

/-- Witness database for the allocation cycle: one agent with 100 credits,
one pending bid of 50 on a bundle asking the full CPU supply fraction for
10 seconds, plus an untouched attention market row. -/
def dbCycle : DB :=
  { agents := [⟨"a1", 100, .alive, 0, 0, [], none⟩],
    workspaces := [],
    bundles := [⟨"bu1", none, none, none, 0, 1, 0, 0, 0, 10⟩],
    bids := [⟨"b1", "a1", "bu1", 50, .pending, none, 1⟩],
    executions := [], transactions := [], prompts := [], responses := [],
    marketStates := [⟨.cpu, 10, 0, 1⟩, ⟨.attention, 1, 0, 7⟩],
    nextId := 0 }

/-- The committed state after one cycle on dbCycle: the bid wins, agent
"a1" is debited to 50, execution "exec-0" is created, the CPU price is
discovered as 50 / (1 × 10) = 5, and no Transaction is recorded. -/
def dbCycleAfter : DB :=
  { agents := [⟨"a1", 50, .alive, 0, 0, [], none⟩],
    workspaces := [],
    bundles := [⟨"bu1", none, none, none, 0, 1, 0, 0, 0, 10⟩],
    bids := [⟨"b1", "a1", "bu1", 50, .winning, some "exec-0", 1⟩],
    executions := [⟨"exec-0", "a1", "bu1", "PENDING"⟩],
    transactions := [], prompts := [], responses := [],
    marketStates := [⟨.cpu, 10, 1, 5⟩, ⟨.attention, 1, 0, 7⟩],
    nextId := 1 }

/-- Concrete evaluation of one allocation cycle on dbCycle. -/
theorem dbCycle_run : run_allocation_cycle dbCycle = .ok dbCycleAfter := by
  norm_num +decide [run_allocation_cycle, pendingBids, sortBids, insertDesc, supplyOf,
    initState, clearLoop, processBid, canFit, bidReq, pyOr, legacyOf, reqGuard, accAll,
    RVec.get, RVec.zero, findAgent, findBundle, findById, List.find?, updateById,
    updateMarkets, dbCycle, dbCycleAfter]

/-- Witness for C1 (amended): on dbCycle the cycle leaves the transaction
log empty and debits exactly the winning amount from the agent total. -/
theorem allocation_cycle_accounting_witness :
    dbCycleAfter.transactions = dbCycle.transactions ∧
    totalBalance dbCycle.agents - totalBalance dbCycleAfter.agents =
      winningSum dbCycleAfter.bids - winningSum dbCycle.bids := by
  have h := allocation_cycle_accounting dbCycle dbCycleAfter dbCycle_run
  exact ⟨h.1, h.2.1⟩

/-- Counterexample for C1 as stated: after the cycle on dbCycle the winning
agent has been debited 50 (balance 100 → 50) but the transaction log is
EMPTY — there is no agent→SYSTEM Transaction for the winning bid, so the
claimed equality of debit sums with Transaction sums fails (50 ≠ 0). -/
theorem allocation_no_ledger_counterexample :
    (run_allocation_cycle dbCycle).toOption.map
      (fun d => (d.transactions, (findAgent d.agents "a1").map Agent.credit_balance,
        d.bids.map Bid.status)) =
      some ([], some 50, [BdStatus.winning]) ∧
    ¬ ((100:Rat) - 50 = 0) := by
  constructor
  · rw [dbCycle_run]
    rfl
  · norm_num

/-- When a resource accumulated no positive capacity-seconds, the market
update leaves the prices of that resource's rows unchanged. -/
theorem updateMarkets_price_of_not_pos (st : CycleState) (rows : List MarketState)
    (rt : ResourceType) (hz : ¬ st.capsecs.get rt > 0) :
    ((updateMarkets st rows).filter (fun m => decide (m.resource_type = rt))).map
      MarketState.current_market_price =
    (rows.filter (fun m => decide (m.resource_type = rt))).map
      MarketState.current_market_price := by
  induction rows with
  | nil => rfl
  | cons ms rest ih =>
    unfold updateMarkets at ih ⊢
    rw [List.map_cons]
    by_cases hrt : ms.resource_type = rt
    · have hz2 : ¬ st.capsecs.get ms.resource_type > 0 := by rw [hrt]; exact hz
      rw [if_neg hz2, List.filter_cons, List.filter_cons]
      simp only [hrt, decide_True, if_true, List.map_cons]
      rw [ih]
    · by_cases hpos : st.capsecs.get ms.resource_type > 0
      · rw [if_pos hpos, List.filter_cons, List.filter_cons,
          if_neg (by simp [hrt]), if_neg (by simp [hrt]), ih]
      · rw [if_neg hpos, List.filter_cons, List.filter_cons,
          if_neg (by simp [hrt]), if_neg (by simp [hrt]), ih]

/-- C4 (corrected statement, both halves): (a) the separate
MarketManager.update_prices step clamps every price into
[MIN_PRICE, MAX_PRICE]; (b) within the allocation cycle itself, the price
of every resource with no winning demand is unchanged — but the discovered
prices the cycle itself stores are NOT clamped (see the counterexample). -/
theorem market_price_clamping (states : List MarketState) (db db' : DB)
    (rt : ResourceType)
    (h : run_allocation_cycle db = .ok db')
    (hnw : ∀ b ∈ db'.bids, b.status = .winning → ∀ bd,
      findBundle db.bundles b.resource_bundle_id = some bd → bidReq bd rt = 0) :
    (∀ s ∈ update_prices states,
      MIN_PRICE ≤ s.current_market_price ∧ s.current_market_price ≤ MAX_PRICE) ∧
    ((db'.marketStates.filter (fun m => decide (m.resource_type = rt))).map
        MarketState.current_market_price =
      (db.marketStates.filter (fun m => decide (m.resource_type = rt))).map
        MarketState.current_market_price) := by
  constructor
  · intro s hs
    rcases List.mem_map.mp hs with ⟨s0, hs0, rfl⟩
    refine ⟨le_max_left _ _, ?_⟩
    exact max_le (by norm_num [MIN_PRICE, MAX_PRICE]) (min_le_left _ _)
  · unfold run_allocation_cycle at h
    cases hcl : clearLoop db (supplyOf db.marketStates) (initState db)
        (sortBids (pendingBids db)) with
    | error e => rw [hcl] at h; exact absurd h (by simp)
    | ok st =>
    rw [hcl] at h
    simp only [Except.ok.injEq] at h
    subst h
    obtain ⟨-, -, -, hcap⟩ :=
      clearLoop_invariants db (supplyOf db.marketStates) (sortBids (pendingBids db))
        (initState db) st hcl
    have hwz : winnersCapSec db (supplyOf db.marketStates) st.processed rt = 0 := by
      apply List.sum_eq_zero
      intro x hx
      rcases List.mem_map.mp hx with ⟨b, hbmem, rfl⟩
      have hbw : b.status = .winning := by
        have := (List.mem_filter.mp hbmem).2
        simpa using this
      have hbin : b ∈ (db.bids.filter (fun b => !(decide (b.status = .pending))))
          ++ st.processed :=
        List.mem_append.mpr (Or.inr (List.mem_filter.mp hbmem).1)
      unfold capSecOf
      cases hfb : findBundle db.bundles b.resource_bundle_id with
      | none => rfl
      | some bd =>
        have hreq := hnw b hbin hbw bd hfb
        simp [reqGuard, hreq]
    have hz : st.capsecs.get rt = 0 := by
      have h0 := hcap rt
      simp only [initState, winnersCapSec, List.filter_nil, List.map_nil,
        List.sum_nil, add_zero] at h0
      simp only [winnersCapSec] at hwz
      rw [hwz] at h0
      have hz0 : RVec.zero.get rt = 0 := by cases rt <;> rfl
      rw [hz0] at h0
      linarith [h0]
    exact updateMarkets_price_of_not_pos st db.marketStates rt (by rw [hz]; norm_num)

/-- Witness for C4: on the dbCycle run (a CPU winner, no attention demand)
the attention row's price is unchanged at 7. -/
theorem market_price_clamping_witness :
    ((dbCycleAfter.marketStates.filter
        (fun m => decide (m.resource_type = ResourceType.attention))).map
      MarketState.current_market_price =
    (dbCycle.marketStates.filter
        (fun m => decide (m.resource_type = ResourceType.attention))).map
      MarketState.current_market_price) := by
  refine (market_price_clamping [] dbCycle dbCycleAfter .attention dbCycle_run ?_).2
  intro b hb hw bd hbd
  rcases List.mem_cons.mp hb with rfl | hb2
  · have hbd' : some (⟨"bu1", none, none, none, 0, 1, 0, 0, 0, 10⟩ : ResourceBundle) =
        some bd := by rw [← hbd]; rfl
    cases hbd'
    rfl
  · exact absurd hb2 (List.not_mem_nil b)

/-- Counterexample database for C4: one winner paying 2500 credits for one
capacity-second makes the discovered CPU price 2500, far above MAX_PRICE. -/
def dbPrice : DB :=
  { agents := [⟨"a1", 5000, .alive, 0, 0, [], none⟩],
    workspaces := [],
    bundles := [⟨"bu1", none, none, none, 0, 1, 0, 0, 0, 1⟩],
    bids := [⟨"b1", "a1", "bu1", 2500, .pending, none, 1⟩],
    executions := [], transactions := [], prompts := [], responses := [],
    marketStates := [⟨.cpu, 10, 0, 1⟩],
    nextId := 0 }

/-- Counterexample for C4 as stated: right after the allocation cycle
commits, the CPU MarketState price is the raw discovered 2500 / 1 = 2500,
violating current_market_price ≤ MAX_PRICE = 1000 — the cycle stores the
discovered price without clamping; clamping only happens later in
MarketManager.update_prices. -/
theorem price_unclamped_counterexample :
    (run_allocation_cycle dbPrice).toOption.map
      (fun d => d.marketStates.map MarketState.current_market_price) = some [2500] ∧
    ¬ ((2500:Rat) ≤ MAX_PRICE) := by
  constructor
  · norm_num +decide [run_allocation_cycle, pendingBids, sortBids, insertDesc, supplyOf,
      initState, clearLoop, processBid, canFit, bidReq, pyOr, legacyOf, reqGuard, accAll,
      RVec.get, RVec.zero, findAgent, findBundle, findById, List.find?, updateById,
      updateMarkets, dbPrice, Except.toOption]
  · norm_num [MAX_PRICE]

end Syntropism
